import Mathlib

/-!
Verification of the notification ("toast") store in
`src/hooks/use-toast.ts` of the quick_desk repository.

The store is a process-wide singleton: a list of toasts (`memoryState`),
a map of pending removal timers keyed by toast id (`toastTimeouts`),
a counter used by `genId`, and a list of subscriber callbacks.

Shallow embedding choices:
* The mutable module-level variables become the explicit record `SysState`;
  every source function that reads or writes them takes and returns it.
* `toastTimeouts : Map<string, Timeout>` is modelled by the list of its
  keys: an id is in the list exactly when a removal timer is pending for it.
  `Map.has` is membership, `Map.set` appends (only ever called when absent),
  `Map.delete` filters the key out.
* A `setTimeout` callback that has been scheduled but not yet run is
  represented by its key being in `toastTimeouts`; the callback firing is
  the explicit step `fireTimer`.
* Each listener is modelled by the list of states it has been notified
  with, in order; `dispatch` appends the new state to every listener's list.
* React node payloads (`title`, `description`, `action`) are opaque to the
  store; they are modelled as `Option String`.  The source field `open` is
  named `isOpen` here because `open` is a Lean keyword.  The `onOpenChange`
  callback installed by `toast()` only invokes `dismiss`, which is modelled
  as the explicit `dismiss` step, so the field itself is not carried.
* JavaScript string truthiness matters in the `DISMISS_TOAST` branch
  (`if (toastId)`): the empty string is falsy, and the embedding keeps that.
-/

namespace UseToast

/-- `const TOAST_LIMIT = 1` -/
def TOAST_LIMIT : Nat := 1

/-- `const TOAST_REMOVE_DELAY = 1000000` -/
def TOAST_REMOVE_DELAY : Nat := 1000000

/-- `Number.MAX_SAFE_INTEGER`, the modulus used by `genId`. -/
def MAX_SAFE_INTEGER : Nat := 2 ^ 53 - 1

/-- `ToasterToast`: a tracked toast.  `isOpen` models the source field
`open`. -/
structure ToasterToast where
  id : String
  title : Option String := none
  description : Option String := none
  action : Option String := none
  isOpen : Bool := false
  deriving Repr, DecidableEq

/-- `Partial<ToasterToast>`: the payload of an `UPDATE_TOAST` action.  A
field is `none` when the corresponding key is absent from the object, so a
JavaScript spread `{ ...t, ...patch }` keeps `t`'s value for it. -/
structure ToastPatch where
  id : Option String := none
  title : Option (Option String) := none
  description : Option (Option String) := none
  action : Option (Option String) := none
  isOpen : Option Bool := none
  deriving Repr, DecidableEq

/-- The spread `{ ...t, ...patch }`: fields present in `patch` win. -/
def mergePatch (t : ToasterToast) (p : ToastPatch) : ToasterToast :=
  { id := p.id.getD t.id
    title := p.title.getD t.title
    description := p.description.getD t.description
    action := p.action.getD t.action
    isOpen := p.isOpen.getD t.isOpen }

/-- The `Action` union dispatched to the reducer. -/
inductive Action where
  | addToast (toast : ToasterToast)
  | updateToast (toast : ToastPatch)
  | dismissToast (toastId : Option String)
  | removeToast (toastId : Option String)
  deriving Repr, DecidableEq

/-- `interface State { toasts: ToasterToast[] }` -/
structure State where
  toasts : List ToasterToast
  deriving Repr, DecidableEq

/-- `addToRemoveQueue`: early-returns when a timer is already pending for
`toastId`, otherwise schedules the removal callback and records its key. -/
def addToRemoveQueue (toastTimeouts : List String) (toastId : String) :
    List String :=
  if toastId ∈ toastTimeouts then toastTimeouts
  else toastTimeouts ++ [toastId]

/-- The source `reducer`.  Its `DISMISS_TOAST` branch calls
`addToRemoveQueue`, which reads and writes the module-level `toastTimeouts`
map, so the embedding passes that map in and out explicitly.
`if (toastId)` is JavaScript truthiness: `undefined` and `""` both take the
`else` branch that queues every tracked toast. -/
def reducer (state : State) (toastTimeouts : List String) (action : Action) :
    State × List String :=
  match action with
  | .addToast t =>
      ({ toasts := (t :: state.toasts).take TOAST_LIMIT }, toastTimeouts)
  | .updateToast p =>
      ({ toasts := state.toasts.map fun t =>
            if some t.id = p.id then mergePatch t p else t },
       toastTimeouts)
  | .dismissToast toastId =>
      let timeouts :=
        match toastId with
        | some tid =>
            if tid = "" then
              state.toasts.foldl (fun acc t => addToRemoveQueue acc t.id)
                toastTimeouts
            else addToRemoveQueue toastTimeouts tid
        | none =>
            state.toasts.foldl (fun acc t => addToRemoveQueue acc t.id)
              toastTimeouts
      ({ toasts := state.toasts.map fun t =>
            if some t.id = toastId ∨ toastId = none then
              { t with isOpen := false }
            else t },
       timeouts)
  | .removeToast toastId =>
      match toastId with
      | none => ({ toasts := [] }, toastTimeouts)
      | some tid =>
          ({ toasts := state.toasts.filter fun t => t.id ≠ tid },
           toastTimeouts)

/-- The whole module-level mutable state of `use-toast.ts`. -/
structure SysState where
  memoryState : State
  toastTimeouts : List String
  count : Nat
  listeners : List (List State)
  deriving Repr, DecidableEq

/-- `dispatch`: runs the reducer on `memoryState` and then synchronously
notifies every listener with the new state. -/
def dispatch (sys : SysState) (action : Action) : SysState :=
  let r := reducer sys.memoryState sys.toastTimeouts action
  { sys with
    memoryState := r.1
    toastTimeouts := r.2
    listeners := sys.listeners.map fun log => log ++ [r.1] }

/-- `type Toast = Omit<ToasterToast, "id">`: the payload accepted by
`toast()`. -/
structure ToastPayload where
  title : Option String := none
  description : Option String := none
  action : Option String := none
  deriving Repr, DecidableEq

/-- `toast(props)` (the `show` operation): runs `genId`
(`count = (count + 1) % Number.MAX_SAFE_INTEGER`), then dispatches
`ADD_TOAST` with the payload spread plus the fresh `id` and `open: true`.
Returns the new system state together with the id exposed on the handle. -/
def toastFn (sys : SysState) (props : ToastPayload) : SysState × String :=
  let count := (sys.count + 1) % MAX_SAFE_INTEGER
  let id := toString count
  (dispatch { sys with count := count }
    (.addToast
      { id := id
        title := props.title
        description := props.description
        action := props.action
        isOpen := true }),
   id)

/-- The handle's `update`: dispatches `UPDATE_TOAST` with
`{ ...props, id }`, the captured id overriding whatever the caller put in
the patch. -/
def handleUpdate (sys : SysState) (id : String) (props : ToastPatch) :
    SysState :=
  dispatch sys (.updateToast { props with id := some id })

/-- `dismiss(toastId?)` as exposed by `useToast` (and, with the captured
id, by the handle returned from `toast()`). -/
def dismiss (sys : SysState) (toastId : Option String) : SysState :=
  dispatch sys (.dismissToast toastId)

/-- The `setTimeout` callback scheduled by `addToRemoveQueue` for
`toastId` firing after `TOAST_REMOVE_DELAY`: it deletes its own entry from
`toastTimeouts` and dispatches `REMOVE_TOAST` for its id.  Only a pending
timer can fire, hence the membership guard. -/
def fireTimer (sys : SysState) (toastId : String) : SysState :=
  if toastId ∈ sys.toastTimeouts then
    dispatch { sys with toastTimeouts := sys.toastTimeouts.filter (· ≠ toastId) }
      (.removeToast (some toastId))
  else sys

/-- `useToast` mounting: `listeners.push(setState)`.  A fresh listener has
received no notifications yet. -/
def subscribeFn (sys : SysState) : SysState :=
  { sys with listeners := sys.listeners ++ [[]] }

/-- `useToast` unmounting: `listeners.splice(index, 1)`. -/
def unsubscribeFn (sys : SysState) (index : Nat) : SysState :=
  { sys with listeners := sys.listeners.eraseIdx index }

/-- The module-level initial state: `memoryState = { toasts: [] }`, empty
timer map, `count = 0`, no listeners. -/
def initialSys : SysState :=
  { memoryState := { toasts := [] }
    toastTimeouts := []
    count := 0
    listeners := [] }

/-- States reachable through the public interface of the module: `toast()`
(show), the handle's `update`, `dismiss`, the removal timers firing, and
components subscribing or unsubscribing. -/
inductive Reachable : SysState → Prop where
  | init : Reachable initialSys
  | showStep {s} (p : ToastPayload) : Reachable s → Reachable (toastFn s p).1
  | updateStep {s} (id : String) (patch : ToastPatch) :
      Reachable s → Reachable (handleUpdate s id patch)
  | dismissStep {s} (oid : Option String) :
      Reachable s → Reachable (dismiss s oid)
  | fireStep {s} (id : String) : Reachable s → Reachable (fireTimer s id)
  | subStep {s} : Reachable s → Reachable (subscribeFn s)
  | unsubStep {s} (i : Nat) : Reachable s → Reachable (unsubscribeFn s i)

/-- A sequence of `toast()` (show) calls, in order. -/
def showSeq (sys : SysState) (ps : List ToastPayload) : SysState :=
  ps.foldl (fun s p => (toastFn s p).1) sys

/-- The toast that the k-th show call constructs when the counter value
assigned to it is `cnt`. -/
def mkShown (cnt : Nat) (p : ToastPayload) : ToasterToast :=
  { id := toString cnt
    title := p.title
    description := p.description
    action := p.action
    isOpen := true }

/-- The toasts a sequence of show calls constructs, oldest first, when the
counter starts at `cnt`. -/
def shownToasts (cnt : Nat) : List ToastPayload → List ToasterToast
  | [] => []
  | p :: ps =>
      mkShown ((cnt + 1) % MAX_SAFE_INTEGER) p ::
        shownToasts ((cnt + 1) % MAX_SAFE_INTEGER) ps

/-! ### Helper lemmas -/

theorem map_eq_self_of {α : Type} (l : List α) (f : α → α)
    (h : ∀ x ∈ l, f x = x) : l.map f = l := by
  induction l with
  | nil => rfl
  | cons a l ih =>
      simp only [List.map_cons, h a (List.mem_cons_self a l)]
      rw [ih fun x hx => h x (List.mem_cons_of_mem a hx)]

theorem map_idem_of {α : Type} (l : List α) (f : α → α)
    (h : ∀ x, f (f x) = f x) : (l.map f).map f = l.map f := by
  rw [List.map_map]
  exact List.map_congr_left fun x _ => h x

theorem mem_arm_self (tm : List String) (tid : String) :
    tid ∈ addToRemoveQueue tm tid := by
  unfold addToRemoveQueue
  split
  · assumption
  · exact List.mem_append_right tm (List.mem_singleton_self tid)

theorem mem_arm_of_mem {x : String} {tm : List String} (h : x ∈ tm)
    (tid : String) : x ∈ addToRemoveQueue tm tid := by
  unfold addToRemoveQueue
  split
  · exact h
  · exact List.mem_append_left _ h

theorem mem_foldlArm_of_mem {x : String} (ts : List ToasterToast)
    {tm : List String} (h : x ∈ tm) :
    x ∈ ts.foldl (fun acc t => addToRemoveQueue acc t.id) tm := by
  induction ts generalizing tm with
  | nil => exact h
  | cons a ts ih => exact ih (mem_arm_of_mem h a.id)

theorem mem_foldlArm (ts : List ToasterToast) (tm : List String)
    {t : ToasterToast} (h : t ∈ ts) :
    t.id ∈ ts.foldl (fun acc t => addToRemoveQueue acc t.id) tm := by
  induction ts generalizing tm with
  | nil => cases h
  | cons a ts ih =>
      rcases List.mem_cons.mp h with h | h
      · subst h
        exact mem_foldlArm_of_mem ts (mem_arm_self tm t.id)
      · exact ih _ h

theorem foldlArm_eq_of_forall_mem (ts : List ToasterToast) (tm : List String)
    (h : ∀ t ∈ ts, t.id ∈ tm) :
    ts.foldl (fun acc t => addToRemoveQueue acc t.id) tm = tm := by
  induction ts with
  | nil => rfl
  | cons a ts ih =>
      have ha : addToRemoveQueue tm a.id = tm := by
        unfold addToRemoveQueue
        rw [if_pos (h a (List.mem_cons_self a ts))]
      simp only [List.foldl_cons, ha]
      exact ih fun t ht => h t (List.mem_cons_of_mem a ht)

theorem foldlArm_map_id_preserving (ts : List ToasterToast)
    (tm : List String) (g : ToasterToast → ToasterToast)
    (hg : ∀ t, (g t).id = t.id) :
    (ts.map g).foldl (fun acc t => addToRemoveQueue acc t.id) tm =
      ts.foldl (fun acc t => addToRemoveQueue acc t.id) tm := by
  induction ts generalizing tm with
  | nil => rfl
  | cons a ts ih =>
      simp only [List.map_cons, List.foldl_cons, hg a]
      exact ih _

theorem nodup_of_length_le_one {α : Type} (l : List α)
    (h : l.length ≤ 1) : l.Nodup := by
  match l with
  | [] => exact List.nodup_nil
  | [a] => exact List.nodup_singleton a
  | a :: b :: l => simp at h

theorem take_append_take {α : Type} (A B : List α) (n : Nat) :
    (A ++ B.take n).take n = (A ++ B).take n := by
  rw [List.take_append_eq_append_take, List.take_append_eq_append_take,
    List.take_take, Nat.min_eq_left (Nat.sub_le n A.length)]

/-- Every reachable state tracks at most `TOAST_LIMIT` toasts. -/
theorem reachable_length_le (sys : SysState) (h : Reachable sys) :
    sys.memoryState.toasts.length ≤ TOAST_LIMIT := by
  induction h with
  | init => exact Nat.zero_le _
  | showStep p _ ih =>
      simp only [toastFn, dispatch, reducer]
      exact List.length_take_le TOAST_LIMIT _
  | updateStep id patch _ ih =>
      simpa [handleUpdate, dispatch, reducer] using ih
  | dismissStep oid _ ih =>
      simpa [dismiss, dispatch, reducer] using ih
  | fireStep id _ ih =>
      unfold fireTimer
      split
      · simpa [dispatch, reducer] using
          Nat.le_trans (List.length_filter_le _ _) ih
      · exact ih
  | subStep _ ih => exact ih
  | unsubStep i _ ih => exact ih

/-! ### Claim theorems -/

/-- C3, counterexample.  The claim says the reducer leaves the timer
bookkeeping (`toastTimeouts`) unchanged for every state and action.  It
does not: the `DISMISS_TOAST` branch calls `addToRemoveQueue`, which arms
a removal timer.  At the concrete state tracking toast `"1"` with no timer
pending, dismissing `"1"` turns the empty timer map into `["1"]`. -/
theorem reducer_dismiss_mutates_timeouts :
    (reducer { toasts := [{ id := "1", isOpen := true }] } []
        (Action.dismissToast (some "1"))).2 = ["1"] ∧
      ["1"] ≠ ([] : List String) := by
  exact ⟨by decide, by decide⟩

/-- C3, amended.  The reducer is pure except for the `DISMISS_TOAST`
branch: the new toast list never depends on the timer map, and every
action other than `DISMISS_TOAST` returns the timer map unchanged.  (The
listener list is untouched by the reducer for every action: in this
embedding the reducer does not even take it as input, and `dispatch` alone
performs the notifications.) -/
theorem reducer_separable (s : State) (tm tm' : List String) (a : Action) :
    (reducer s tm a).1 = (reducer s tm' a).1 ∧
      ((∀ oid, a ≠ Action.dismissToast oid) → (reducer s tm a).2 = tm) := by
  constructor
  · cases a with
    | addToast t => rfl
    | updateToast p => rfl
    | dismissToast oid => rfl
    | removeToast oid => cases oid <;> rfl
  · intro h
    cases a with
    | addToast t => rfl
    | updateToast p => rfl
    | dismissToast oid => exact absurd rfl (h oid)
    | removeToast oid => cases oid <;> rfl

/-- Witness for `reducer_separable` at a concrete `ADD_TOAST` action. -/
theorem reducer_separable_witness :
    (reducer { toasts := [] } ["9"] (Action.addToast { id := "2" })).1 =
        (reducer { toasts := [] } [] (Action.addToast { id := "2" })).1 ∧
      (reducer { toasts := [] } ["9"] (Action.addToast { id := "2" })).2 =
        ["9"] := by
  have h := reducer_separable { toasts := [] } ["9"] []
    (Action.addToast { id := "2" })
  exact ⟨h.1, h.2 fun oid heq => by cases heq⟩

/-- C2, counterexample.  The claim says dispatching `REMOVE_TOAST` for an
id with a pending timer cancels that timer.  It does not: the reducer's
`REMOVE_TOAST` branch only filters the toast list, and the timer entry is
deleted only by the timeout callback itself when it later fires.  At the
concrete state tracking toast `"1"` with a timer pending for `"1"`,
dispatching `REMOVE_TOAST "1"` empties the toast list but leaves `"1"` in
the timer map. -/
theorem remove_does_not_cancel_timer :
    (dispatch
        { memoryState := { toasts := [{ id := "1", isOpen := false }] }
          toastTimeouts := ["1"]
          count := 1
          listeners := [] }
        (Action.removeToast (some "1"))).toastTimeouts = ["1"] ∧
      (dispatch
        { memoryState := { toasts := [{ id := "1", isOpen := false }] }
          toastTimeouts := ["1"]
          count := 1
          listeners := [] }
        (Action.removeToast (some "1"))).memoryState.toasts = [] := by
  exact ⟨by decide, by decide⟩

/-- C2, amended.  Dispatching `REMOVE_TOAST id` deletes the toast from the
active list immediately but leaves the pending timer armed; when that
timer later fires it dispatches a second `REMOVE_TOAST` for the same id,
which leaves the (already filtered) toast list unchanged — a benign
duplicate — and only then is the timer entry cleared. -/
theorem remove_deletes_toast_timer_persists (sys : SysState) (tid : String) :
    (dispatch sys (Action.removeToast (some tid))).memoryState.toasts =
        sys.memoryState.toasts.filter (fun t => t.id ≠ tid) ∧
      (dispatch sys (Action.removeToast (some tid))).toastTimeouts =
        sys.toastTimeouts ∧
      (tid ∈ sys.toastTimeouts →
        (fireTimer (dispatch sys (Action.removeToast (some tid)))
              tid).memoryState.toasts =
            (dispatch sys (Action.removeToast (some tid))).memoryState.toasts ∧
          tid ∉ (fireTimer (dispatch sys (Action.removeToast (some tid)))
              tid).toastTimeouts) := by
  refine ⟨rfl, rfl, fun hmem => ?_⟩
  have hcond :
      tid ∈ (dispatch sys (Action.removeToast (some tid))).toastTimeouts :=
    hmem
  unfold fireTimer
  rw [if_pos hcond]
  constructor
  · show (sys.memoryState.toasts.filter (fun t => t.id ≠ tid)).filter
        (fun t => t.id ≠ tid) =
      sys.memoryState.toasts.filter (fun t => t.id ≠ tid)
    rw [List.filter_filter]
    exact List.filter_congr fun t _ => by
      cases h : decide (t.id ≠ tid) <;> simp [h]
  · show tid ∉ sys.toastTimeouts.filter (· ≠ tid)
    simp

/-- Witness for `remove_deletes_toast_timer_persists` at the concrete
state of the counterexample. -/
theorem remove_deletes_toast_timer_persists_witness :
    (dispatch
        { memoryState := { toasts := [{ id := "1", isOpen := false }] }
          toastTimeouts := ["1"]
          count := 1
          listeners := [] }
        (Action.removeToast (some "1"))).memoryState.toasts =
        ({ toasts := [({ id := "1", isOpen := false } : ToasterToast)] } :
            State).toasts.filter (fun t => t.id ≠ "1") ∧
      (fireTimer (dispatch
          { memoryState := { toasts := [{ id := "1", isOpen := false }] }
            toastTimeouts := ["1"]
            count := 1
            listeners := [] }
          (Action.removeToast (some "1"))) "1").memoryState.toasts =
        (dispatch
          { memoryState := { toasts := [{ id := "1", isOpen := false }] }
            toastTimeouts := ["1"]
            count := 1
            listeners := [] }
          (Action.removeToast (some "1"))).memoryState.toasts := by
  have h := remove_deletes_toast_timer_persists
    { memoryState := { toasts := [{ id := "1", isOpen := false }] }
      toastTimeouts := ["1"]
      count := 1
      listeners := [] } "1"
  exact ⟨h.1, (h.2.2 (by decide)).1⟩

/-- C5.  `toast(payload)` (show) synchronously notifies every current
subscriber with the new state; the first element of that state's toast
list is open, carries the freshly generated id (the incremented counter,
mod `Number.MAX_SAFE_INTEGER`, rendered as a string), and its non-id
fields equal the payload. -/
theorem show_notifies_subscribers (sys : SysState) (p : ToastPayload) :
    (toastFn sys p).1.listeners =
        sys.listeners.map (fun log => log ++ [(toastFn sys p).1.memoryState]) ∧
      (toastFn sys p).1.memoryState.toasts.head? = some
        { id := (toastFn sys p).2
          title := p.title
          description := p.description
          action := p.action
          isOpen := true } ∧
      (toastFn sys p).2 = toString ((sys.count + 1) % MAX_SAFE_INTEGER) := by
  exact ⟨rfl, rfl, rfl⟩

/-- C6.  `UPDATE_TOAST` is a frame-respecting partial merge: the list
keeps its length; at every position, the toast whose id matches the patch
gets exactly the fields present in the patch (with `Option.getD` falling
back to the old value for absent fields, and the id itself unchanged),
and a toast whose id does not match is returned unchanged. -/
theorem update_partial_merge (s : State) (tm : List String) (p : ToastPatch)
    (i : Nat) (t : ToasterToast) (h : s.toasts[i]? = some t) :
    (reducer s tm (Action.updateToast p)).1.toasts.length =
        s.toasts.length ∧
      ∃ t', (reducer s tm (Action.updateToast p)).1.toasts[i]? = some t' ∧
        (some t.id = p.id →
          t'.id = t.id ∧
            t'.title = p.title.getD t.title ∧
            t'.description = p.description.getD t.description ∧
            t'.action = p.action.getD t.action ∧
            t'.isOpen = p.isOpen.getD t.isOpen) ∧
        (some t.id ≠ p.id → t' = t) := by
  constructor
  · exact List.length_map _ _
  · refine ⟨if some t.id = p.id then mergePatch t p else t, ?_, ?_, ?_⟩
    · show (s.toasts.map fun t =>
          if some t.id = p.id then mergePatch t p else t)[i]? = _
      rw [List.getElem?_map, h]
      rfl
    · intro hid
      rw [if_pos hid]
      refine ⟨?_, rfl, rfl, rfl, rfl⟩
      show p.id.getD t.id = t.id
      rw [← hid]
      rfl
    · intro hid
      rw [if_neg hid]

/-- Witness for `update_partial_merge`: patching the title of the single
tracked toast changes the title and nothing else. -/
theorem update_partial_merge_witness :
    (reducer { toasts := [{ id := "1", title := some "A", isOpen := true }] }
        [] (Action.updateToast { id := some "1", title := some (some "B") })
        ).1.toasts.length = 1 ∧
      ∃ t', (reducer
          { toasts := [{ id := "1", title := some "A", isOpen := true }] }
          [] (Action.updateToast { id := some "1", title := some (some "B") })
          ).1.toasts[0]? = some t' ∧
        t'.title = some "B" ∧ t'.id = "1" ∧ t'.isOpen = true := by
  have h := update_partial_merge
    { toasts := [{ id := "1", title := some "A", isOpen := true }] } []
    { id := some "1", title := some (some "B") } 0
    { id := "1", title := some "A", isOpen := true } (by decide)
  rcases h with ⟨hlen, t', hget, hmatch, _⟩
  have hm := hmatch rfl
  exact ⟨hlen, t', hget, hm.2.1, hm.1, hm.2.2.2.2⟩

/-- C8.  An id absent from the tracked list is a benign no-op for all
three mutations: `update` (via the handle), `dismiss`, and a dispatched
`REMOVE_TOAST` all leave the toast list unchanged (the operations are
total functions, so no error can be raised); and removal is idempotent
for every state and id, absent or not. -/
theorem lookup_miss_noop (sys : SysState) (h : String) (patch : ToastPatch)
    (hmem : h ∉ sys.memoryState.toasts.map fun t => t.id) :
    (handleUpdate sys h patch).memoryState.toasts =
        sys.memoryState.toasts ∧
      (dismiss sys (some h)).memoryState.toasts = sys.memoryState.toasts ∧
      (dispatch sys (Action.removeToast (some h))).memoryState.toasts =
        sys.memoryState.toasts ∧
      ∀ (sys' : SysState) (h' : String),
        (dispatch (dispatch sys' (Action.removeToast (some h')))
            (Action.removeToast (some h'))).memoryState.toasts =
          (dispatch sys' (Action.removeToast (some h'))).memoryState.toasts := by
  have hid : ∀ t ∈ sys.memoryState.toasts, t.id ≠ h := by
    intro t ht heq
    exact hmem (List.mem_map.mpr ⟨t, ht, heq⟩)
  refine ⟨?_, ?_, ?_, ?_⟩
  · show sys.memoryState.toasts.map (fun t =>
        if some t.id = some h then mergePatch t _ else t) =
      sys.memoryState.toasts
    exact map_eq_self_of _ _ fun t ht => by
      rw [if_neg fun heq => hid t ht (Option.some_injective _ heq)]
  · show sys.memoryState.toasts.map (fun t =>
        if some t.id = some h ∨ (some h : Option String) = none then
          { t with isOpen := false } else t) =
      sys.memoryState.toasts
    exact map_eq_self_of _ _ fun t ht => by
      rw [if_neg]
      rintro (heq | heq)
      · exact hid t ht (Option.some_injective _ heq)
      · cases heq
  · show sys.memoryState.toasts.filter (fun t => t.id ≠ h) =
      sys.memoryState.toasts
    exact List.filter_eq_self.mpr fun t ht => by
      simpa using hid t ht
  · intro sys' h'
    show (sys'.memoryState.toasts.filter fun t => t.id ≠ h').filter
        (fun t => t.id ≠ h') =
      sys'.memoryState.toasts.filter fun t => t.id ≠ h'
    rw [List.filter_filter]
    exact List.filter_congr fun t _ => by
      cases hd : decide (t.id ≠ h') <;> simp [hd]

/-- Witness for `lookup_miss_noop` with id "7" absent from a singleton
state. -/
theorem lookup_miss_noop_witness :
    (handleUpdate
        { memoryState := { toasts := [{ id := "1", isOpen := true }] }
          toastTimeouts := []
          count := 1
          listeners := [] } "7"
        { title := some (some "B") }).memoryState.toasts =
        [{ id := "1", isOpen := true }] ∧
      (dismiss
        { memoryState := { toasts := [{ id := "1", isOpen := true }] }
          toastTimeouts := []
          count := 1
          listeners := [] } (some "7")).memoryState.toasts =
        [{ id := "1", isOpen := true }] := by
  have h := lookup_miss_noop
    { memoryState := { toasts := [{ id := "1", isOpen := true }] }
      toastTimeouts := []
      count := 1
      listeners := [] } "7" { title := some (some "B") } (by decide)
  exact ⟨h.1, h.2.1⟩

/-- C10, counterexample.  The claim says dismissing an id that matches no
tracked toast still arms a removal timer for that id.  The empty string
refutes it: `if (toastId)` in the `DISMISS_TOAST` branch treats `""` as
falsy, so `dismiss("")` takes the dismiss-all branch; from the initial
state (no toasts tracked, so `""` matches nothing) it arms no timer at
all, and in particular none keyed by `""`. -/
theorem dismiss_empty_id_arms_nothing :
    "" ∉ initialSys.memoryState.toasts.map (fun t => t.id) ∧
      (dismiss initialSys (some "")).toastTimeouts = [] := by
  exact ⟨by decide, by decide⟩

/-- C10, amended.  For every NON-EMPTY id matching no tracked toast,
`dismiss(id)` leaves the toast list unchanged yet still arms a removal
timer keyed by that id; when that timer fires it dispatches a
`REMOVE_TOAST` for the absent id — the subscribers are notified again and
the timer entry is cleared, but the toast list stays unchanged. -/
theorem dismiss_untracked_arms_timer (sys : SysState) (h : String)
    (hne : h ≠ "") (hmem : h ∉ sys.memoryState.toasts.map fun t => t.id) :
    (dismiss sys (some h)).memoryState.toasts = sys.memoryState.toasts ∧
      h ∈ (dismiss sys (some h)).toastTimeouts ∧
      (fireTimer (dismiss sys (some h)) h).memoryState.toasts =
        (dismiss sys (some h)).memoryState.toasts ∧
      h ∉ (fireTimer (dismiss sys (some h)) h).toastTimeouts ∧
      (fireTimer (dismiss sys (some h)) h).listeners =
        (dismiss sys (some h)).listeners.map
          (fun log => log ++ [(fireTimer (dismiss sys (some h)) h).memoryState]) := by
  have hid : ∀ t ∈ sys.memoryState.toasts, t.id ≠ h := by
    intro t ht heq
    exact hmem (List.mem_map.mpr ⟨t, ht, heq⟩)
  have htoasts :
      (dismiss sys (some h)).memoryState.toasts = sys.memoryState.toasts := by
    show sys.memoryState.toasts.map (fun t =>
        if some t.id = some h ∨ (some h : Option String) = none then
          { t with isOpen := false } else t) =
      sys.memoryState.toasts
    exact map_eq_self_of _ _ fun t ht => by
      rw [if_neg]
      rintro (heq | heq)
      · exact hid t ht (Option.some_injective _ heq)
      · cases heq
  have harm : (dismiss sys (some h)).toastTimeouts =
      addToRemoveQueue sys.toastTimeouts h := by
    show (if h = "" then _ else addToRemoveQueue sys.toastTimeouts h) = _
    rw [if_neg hne]
  have hmem1 : h ∈ (dismiss sys (some h)).toastTimeouts := by
    rw [harm]
    exact mem_arm_self _ _
  refine ⟨htoasts, hmem1, ?_⟩
  unfold fireTimer
  rw [if_pos hmem1]
  refine ⟨?_, ?_, rfl⟩
  · show (dismiss sys (some h)).memoryState.toasts.filter
        (fun t => t.id ≠ h) = (dismiss sys (some h)).memoryState.toasts
    rw [htoasts]
    exact List.filter_eq_self.mpr fun t ht => by simpa using hid t ht
  · show h ∉ (dismiss sys (some h)).toastTimeouts.filter (· ≠ h)
    simp

/-- Witness for `dismiss_untracked_arms_timer` with id "7" absent from the
initial state. -/
theorem dismiss_untracked_arms_timer_witness :
    (dismiss initialSys (some "7")).memoryState.toasts =
        initialSys.memoryState.toasts ∧
      "7" ∈ (dismiss initialSys (some "7")).toastTimeouts ∧
      "7" ∉ (fireTimer (dismiss initialSys (some "7")) "7").toastTimeouts := by
  have h := dismiss_untracked_arms_timer initialSys "7" (by decide) (by decide)
  exact ⟨h.1, h.2.1, h.2.2.2.1⟩

/-- Shape of the toast list after a sequence of show calls from any state
already within the limit: the shown toasts (most recent first) prepended
to the old list, truncated to `TOAST_LIMIT`. -/
theorem showSeq_toasts (ps : List ToastPayload) (sys : SysState)
    (hlen : sys.memoryState.toasts.length ≤ TOAST_LIMIT) :
    (showSeq sys ps).memoryState.toasts =
      ((shownToasts sys.count ps).reverse ++ sys.memoryState.toasts).take
        TOAST_LIMIT := by
  induction ps generalizing sys with
  | nil =>
      show sys.memoryState.toasts = _
      rw [shownToasts, List.reverse_nil, List.nil_append,
        List.take_of_length_le hlen]
  | cons p ps ih =>
      have hstep : showSeq sys (p :: ps) = showSeq (toastFn sys p).1 ps := rfl
      rw [hstep, ih (toastFn sys p).1 (by
        show ((mkShown ((sys.count + 1) % MAX_SAFE_INTEGER) p ::
            sys.memoryState.toasts).take TOAST_LIMIT).length ≤ TOAST_LIMIT
        exact List.length_take_le _ _)]
      show ((shownToasts ((sys.count + 1) % MAX_SAFE_INTEGER) ps).reverse ++
          (mkShown ((sys.count + 1) % MAX_SAFE_INTEGER) p ::
            sys.memoryState.toasts).take TOAST_LIMIT).take TOAST_LIMIT = _
      rw [take_append_take, shownToasts, List.reverse_cons,
        List.append_assoc, List.singleton_append]

/-- C1.  Starting from the initial state, after any sequence of show
calls the tracked list is exactly the `TOAST_LIMIT` most recently shown
toasts, most recent first (the older ones evicted), and its length never
exceeds `TOAST_LIMIT`. -/
theorem show_seq_limit (ps : List ToastPayload) :
    (showSeq initialSys ps).memoryState.toasts =
        ((shownToasts 0 ps).reverse).take TOAST_LIMIT ∧
      (showSeq initialSys ps).memoryState.toasts.length ≤ TOAST_LIMIT := by
  have h : (showSeq initialSys ps).memoryState.toasts =
      ((shownToasts 0 ps).reverse ++ ([] : List ToasterToast)).take
        TOAST_LIMIT :=
    showSeq_toasts ps initialSys (Nat.zero_le _)
  rw [List.append_nil] at h
  exact ⟨h, h ▸ List.length_take_le _ _⟩

theorem count_foldlArm_of_mem (ts : List ToasterToast) (tm : List String)
    (x : String) (hx : x ∈ tm) :
    (ts.foldl (fun acc t => addToRemoveQueue acc t.id) tm).count x =
      tm.count x := by
  induction ts generalizing tm with
  | nil => rfl
  | cons a ts ih =>
      show ((ts.foldl _ (addToRemoveQueue tm a.id)).count x) = _
      rw [ih _ (mem_arm_of_mem hx a.id)]
      unfold addToRemoveQueue
      split
      · rfl
      · next hnmem =>
          rw [List.count_append, List.count_singleton']
          have : a.id ≠ x := fun heq => hnmem (heq ▸ hx)
          simp [this]

theorem arm_idem (tm : List String) (tid : String) :
    addToRemoveQueue (addToRemoveQueue tm tid) tid =
      addToRemoveQueue tm tid := by
  show (if tid ∈ addToRemoveQueue tm tid then addToRemoveQueue tm tid
      else addToRemoveQueue tm tid ++ [tid]) = addToRemoveQueue tm tid
  rw [if_pos (mem_arm_self tm tid)]

theorem not_mem_ids_filter (l : List ToasterToast) (x : String) :
    x ∉ (l.filter fun t => t.id ≠ x).map fun t => t.id := by
  intro hx
  rcases List.mem_map.mp hx with ⟨u, hu, huid⟩
  have h2 := (List.mem_filter.mp hu).2
  rw [huid] at h2
  simp at h2

/-- C4.  `dismiss(id)` is idempotent: a second dismissal of the same id
changes neither the store state nor the timer map (the pending timer is
reused, not duplicated); for a non-empty id, starting from a timer map
holding at most one entry for it, a dismiss leaves the timer map with
exactly one entry for that id; and whenever a timer for the id is already
pending (exactly one entry, any id), a dismiss keeps it at exactly one. -/
theorem dismiss_idempotent (sys : SysState) (tid : String) :
    (dismiss (dismiss sys (some tid)) (some tid)).memoryState =
        (dismiss sys (some tid)).memoryState ∧
      (dismiss (dismiss sys (some tid)) (some tid)).toastTimeouts =
        (dismiss sys (some tid)).toastTimeouts ∧
      (tid ≠ "" → sys.toastTimeouts.count tid ≤ 1 →
        (dismiss sys (some tid)).toastTimeouts.count tid = 1) ∧
      (sys.toastTimeouts.count tid = 1 →
        (dismiss sys (some tid)).toastTimeouts.count tid = 1) := by
  have hgid : ∀ t : ToasterToast,
      (if some t.id = some tid ∨ (some tid : Option String) = none then
        { t with isOpen := false } else t).id = t.id := by
    intro t
    split <;> rfl
  have h3 : (dismiss sys (some tid)).memoryState.toasts =
      sys.memoryState.toasts.map fun t =>
        if some t.id = some tid ∨ (some tid : Option String) = none then
          { t with isOpen := false } else t := rfl
  have h1 : (dismiss sys (some tid)).toastTimeouts =
      (if tid = "" then
        sys.memoryState.toasts.foldl (fun acc t => addToRemoveQueue acc t.id)
          sys.toastTimeouts
      else addToRemoveQueue sys.toastTimeouts tid) := rfl
  refine ⟨?_, ?_, ?_, ?_⟩
  · show State.mk ((dismiss sys (some tid)).memoryState.toasts.map fun t =>
        if some t.id = some tid ∨ (some tid : Option String) = none then
          { t with isOpen := false } else t) =
      State.mk (dismiss sys (some tid)).memoryState.toasts
    rw [h3]
    refine congrArg State.mk (map_idem_of _ _ fun t => ?_)
    by_cases hc : some t.id = some tid ∨ (some tid : Option String) = none
    · have hc' : some ({ t with isOpen := false } : ToasterToast).id =
          some tid ∨ (some tid : Option String) = none := hc
      rw [if_pos hc, if_pos hc']
    · rw [if_neg hc, if_neg hc]
  · have h2 : (dismiss (dismiss sys (some tid)) (some tid)).toastTimeouts =
        (if tid = "" then
          (dismiss sys (some tid)).memoryState.toasts.foldl
            (fun acc t => addToRemoveQueue acc t.id)
            (dismiss sys (some tid)).toastTimeouts
        else addToRemoveQueue (dismiss sys (some tid)).toastTimeouts tid) :=
      rfl
    rw [h2, h1, h3]
    by_cases he : tid = ""
    · rw [if_pos he, if_pos he]
      rw [foldlArm_map_id_preserving _ _ _ hgid]
      exact foldlArm_eq_of_forall_mem _ _ fun t ht => mem_foldlArm _ _ ht
    · rw [if_neg he, if_neg he]
      exact arm_idem sys.toastTimeouts tid
  · intro hne hcount
    show (if tid = "" then _
        else addToRemoveQueue sys.toastTimeouts tid).count tid = 1
    rw [if_neg hne]
    unfold addToRemoveQueue
    split
    · next hmem =>
        have hpos : 0 < sys.toastTimeouts.count tid :=
          List.count_pos_iff.mpr hmem
        omega
    · next hmem =>
        rw [List.count_append,
          List.count_eq_zero.mpr hmem]
        simp
  · intro hcount
    rw [h1]
    by_cases he : tid = ""
    · rw [if_pos he]
      exact (count_foldlArm_of_mem _ _ _
        (List.count_pos_iff.mp (hcount ▸ Nat.one_pos))).trans hcount
    · rw [if_neg he]
      unfold addToRemoveQueue
      split
      · exact hcount
      · next hmem =>
          rw [List.count_eq_zero.mpr hmem] at hcount
          cases hcount

/-- Witness for `dismiss_idempotent` from the initial state with id "1". -/
theorem dismiss_idempotent_witness :
    (dismiss (dismiss initialSys (some "1")) (some "1")).memoryState =
        (dismiss initialSys (some "1")).memoryState ∧
      (dismiss (dismiss initialSys (some "1")) (some "1")).toastTimeouts =
        (dismiss initialSys (some "1")).toastTimeouts ∧
      (dismiss initialSys (some "1")).toastTimeouts.count "1" = 1 := by
  have h := dismiss_idempotent initialSys "1"
  exact ⟨h.1, h.2.1, h.2.2.1 (by decide) (by decide)⟩

/-- C7.  For a tracked id `h`, `dismiss(h)` keeps `h` tracked but closed
(`isOpen = false`) and arms its removal timer; when that timer fires, `h`
is no longer tracked and its timer entry is cleared.  With the id omitted,
the same holds for every currently tracked toast. -/
theorem dismiss_closes_then_timer_removes (sys : SysState) (h : String)
    (hmem : h ∈ sys.memoryState.toasts.map fun t => t.id) :
    (∃ t ∈ (dismiss sys (some h)).memoryState.toasts,
        t.id = h ∧ t.isOpen = false) ∧
      h ∈ (dismiss sys (some h)).toastTimeouts ∧
      h ∉ ((fireTimer (dismiss sys (some h)) h).memoryState.toasts.map
        fun t => t.id) ∧
      h ∉ (fireTimer (dismiss sys (some h)) h).toastTimeouts ∧
      ∀ t ∈ (dismiss sys none).memoryState.toasts,
        t.isOpen = false ∧
          t.id ∈ (dismiss sys none).toastTimeouts ∧
          t.id ∉ ((fireTimer (dismiss sys none) t.id).memoryState.toasts.map
            fun u => u.id) ∧
          t.id ∉ (fireTimer (dismiss sys none) t.id).toastTimeouts := by
  rcases List.mem_map.mp hmem with ⟨t0, ht0, hid0⟩
  have hmem1 : h ∈ (dismiss sys (some h)).toastTimeouts := by
    show h ∈ (if h = "" then
        sys.memoryState.toasts.foldl (fun acc t => addToRemoveQueue acc t.id)
          sys.toastTimeouts
      else addToRemoveQueue sys.toastTimeouts h)
    by_cases he : h = ""
    · rw [if_pos he]
      exact hid0 ▸ mem_foldlArm _ _ ht0
    · rw [if_neg he]
      exact mem_arm_self _ _
  refine ⟨?_, hmem1, ?_, ?_, ?_⟩
  · refine ⟨{ t0 with isOpen := false }, ?_, hid0, rfl⟩
    show _ ∈ sys.memoryState.toasts.map fun t =>
      if some t.id = some h ∨ (some h : Option String) = none then
        { t with isOpen := false } else t
    have : (if some t0.id = some h ∨ (some h : Option String) = none then
        { t0 with isOpen := false } else t0) = { t0 with isOpen := false } := by
      rw [if_pos (Or.inl (by rw [hid0]))]
    exact this ▸ List.mem_map_of_mem _ ht0
  · show h ∉ (fireTimer (dismiss sys (some h)) h).memoryState.toasts.map
      fun t => t.id
    unfold fireTimer
    rw [if_pos hmem1]
    exact not_mem_ids_filter _ h
  · unfold fireTimer
    rw [if_pos hmem1]
    show h ∉ (dismiss sys (some h)).toastTimeouts.filter (· ≠ h)
    simp
  · intro t ht
    have ht' : t ∈ sys.memoryState.toasts.map fun u =>
        if some u.id = (none : Option String) ∨ (none : Option String) = none
        then { u with isOpen := false } else u := ht
    rcases List.mem_map.mp ht' with ⟨u, hu, hut⟩
    have hueq : t = { u with isOpen := false } := by
      rw [← hut, if_pos (Or.inr rfl)]
    have hid : t.id = u.id := by rw [hueq]
    have hmemall : t.id ∈ (dismiss sys none).toastTimeouts := by
      show t.id ∈ sys.memoryState.toasts.foldl
        (fun acc t => addToRemoveQueue acc t.id) sys.toastTimeouts
      exact hid ▸ mem_foldlArm _ _ hu
    refine ⟨by rw [hueq], hmemall, ?_, ?_⟩
    · unfold fireTimer
      rw [if_pos hmemall]
      exact not_mem_ids_filter _ _
    · unfold fireTimer
      rw [if_pos hmemall]
      show t.id ∉ (dismiss sys none).toastTimeouts.filter (· ≠ t.id)
      simp

/-- Witness for `dismiss_closes_then_timer_removes`: the state tracking
the single toast "1". -/
theorem dismiss_closes_then_timer_removes_witness :
    (∃ t ∈ (dismiss
        { memoryState := { toasts := [{ id := "1", isOpen := true }] }
          toastTimeouts := []
          count := 1
          listeners := [] } (some "1")).memoryState.toasts,
        t.id = "1" ∧ t.isOpen = false) ∧
      "1" ∉ (fireTimer (dismiss
        { memoryState := { toasts := [{ id := "1", isOpen := true }] }
          toastTimeouts := []
          count := 1
          listeners := [] } (some "1")) "1").memoryState.toasts.map
        (fun t => t.id) := by
  have h := dismiss_closes_then_timer_removes
    { memoryState := { toasts := [{ id := "1", isOpen := true }] }
      toastTimeouts := []
      count := 1
      listeners := [] } "1" (by decide)
  exact ⟨h.1, h.2.2.1⟩

/-- C9.  In every reachable state the ids of the tracked toasts are
pairwise distinct; moreover, after a show from any reachable state the
only toast bearing the freshly assigned id is the toast just created (the
previous bearer, if the counter ever wrapped around, is evicted in the
same step). -/
theorem reachable_ids_nodup (sys : SysState) (hr : Reachable sys) :
    ((sys.memoryState.toasts.map fun t => t.id).Nodup) ∧
      ∀ (p : ToastPayload) (t : ToasterToast),
        t ∈ (toastFn sys p).1.memoryState.toasts →
          t = { id := (toastFn sys p).2
                title := p.title
                description := p.description
                action := p.action
                isOpen := true } := by
  constructor
  · refine nodup_of_length_le_one _ ?_
    rw [List.length_map]
    exact reachable_length_le sys hr
  · intro p t ht
    have hl : (toastFn sys p).1.memoryState.toasts =
        [{ id := (toastFn sys p).2
           title := p.title
           description := p.description
           action := p.action
           isOpen := true }] := rfl
    rw [hl] at ht
    simpa using ht

/-- Witness for `reachable_ids_nodup` at the initial state. -/
theorem reachable_ids_nodup_witness :
    ((initialSys.memoryState.toasts.map fun t => t.id).Nodup) ∧
      ({ id := "1", title := some "X", description := none, action := none,
          isOpen := true } : ToasterToast) =
        { id := (toastFn initialSys { title := some "X" }).2
          title := some "X"
          description := none
          action := none
          isOpen := true } := by
  have h := reachable_ids_nodup initialSys Reachable.init
  exact ⟨h.1, h.2 { title := some "X" } _ (by decide)⟩

end UseToast
